import Mathlib

/-!
Shallow embedding of the `rustub-storage` single-file page-based storage
engine (`src/lib.rs`, `src/table.rs`).

Modelling conventions:
* The database file is a total function `Nat → Nat` from byte address to
  byte value.  A fresh file is all zeros; reads beyond the end of the
  file return 0 in the model (the source surfaces an `Io` error there;
  no claim below depends on that behaviour).
* Buffered I/O is flattened: every `write_all` becomes an immediate
  update of the file function, and each operation's trailing `flush` is
  a no-op.  Reader/writer stream positions are replaced by the explicit
  byte addresses the source computes via `seek`/`stream_position`.
* Machine integers are `Nat`/`Int` with explicit wrap-around: `i32`
  values written to disk are encoded two's complement modulo 2^32, the
  `u16` row-width accumulations wrap modulo 2^16 (release-profile
  semantics of the source's `+`/`sum`), the `u8` multiplication in
  `drop` wraps modulo 2^8, and the `as u64` casts are `% 2^64`.
* Strings are modelled as their list of character codes (`strBytes`),
  which agrees with the source's UTF-8 bytes for the ASCII names used
  throughout; `String::from_utf8_lossy` is modelled by `bytesToStr`.
* `HashMap<String, HeaderMeta>` is an association list keyed by name and
  `HashSet<i32>` a duplicate-free list; iteration order is immaterial to
  every property proved here.
* Rust slicing `&buf[lo..hi]` is the total `rustSlice` (take/drop); for
  the in-bounds ranges required of callers it equals the source slice.
* The source loops `while cursor < PAGE_SIZE { ...; cursor += row_len }`
  execute `⌈4096 / row_len⌉` iterations when `row_len > 0` (and never
  terminate when `row_len = 0`); they are modelled as iteration over
  `List.range (numSlots row_len)` with `numSlots 0 = 0`, a case no
  claim exercises.
* `Condition` is modelled with the fields `range`/`eq_to` that
  `lib.rs` accesses (`table.rs` declares `data`/`ord`, which `lib.rs`
  never uses).
-/

namespace Rustub

/-- A database file: byte address to byte value. -/
def File : Type := Nat → Nat

/-- The fixed page size (`PAGE_SIZE = 4 * 1024`). -/
def PAGE_SIZE : Nat := 4096

/-- Read `n` consecutive bytes starting at address `a`. -/
def readBytes (f : File) (a n : Nat) : List Nat :=
  (List.range n).map fun i => f (a + i)

/-- Overwrite the bytes starting at address `a` with the list `bs`
(models a `write_all` of `bs` after a seek to `a`). -/
def writeBytes (f : File) (a : Nat) (bs : List Nat) : File :=
  fun x => if a ≤ x ∧ x < a + bs.length then bs.getD (x - a) 0 else f x

/-- Overwrite `n` bytes starting at `a` with zeros (models a
`write_all` of a zero buffer of length `n`). -/
def writeZeros (f : File) (a n : Nat) : File :=
  fun x => if a ≤ x ∧ x < a + n then 0 else f x

/-- Two's-complement big-endian encoding of an `i32`
(`i32::to_be_bytes`). -/
def i32ToBe (v : Int) : List Nat :=
  let m := (v % 4294967296).toNat
  [m / 16777216 % 256, m / 65536 % 256, m / 256 % 256, m % 256]

/-- Big-endian decoding of 4 bytes into an `i32`
(`i32::from_be_bytes`). -/
def beToI32 (bs : List Nat) : Int :=
  let m := ((bs.getD 0 0 * 256 + bs.getD 1 0) * 256 + bs.getD 2 0) * 256 + bs.getD 3 0
  if m < 2147483648 then (m : Int) else (m : Int) - 4294967296

/-- Big-endian encoding of a `u16` (`u16::to_be_bytes`). -/
def u16ToBe (n : Nat) : List Nat :=
  [n / 256 % 256, n % 256]

/-- Big-endian decoding of 2 bytes into a `u16`
(`u16::from_be_bytes`). -/
def beToU16 (bs : List Nat) : Nat :=
  bs.getD 0 0 * 256 + bs.getD 1 0

/-- The `as u64` cast applied to an `i32` page number before address
arithmetic (sign extension, i.e. reduction modulo 2^64). -/
def asU64 (v : Int) : Nat :=
  (v % 18446744073709551616).toNat

/-- Bytes of a string; agrees with the source's UTF-8 bytes on the
ASCII names used throughout. -/
def strBytes (s : String) : List Nat :=
  s.toList.map Char.toNat

/-- Inverse of `strBytes`; models `String::from_utf8_lossy` on ASCII
byte lists. -/
def bytesToStr (bs : List Nat) : String :=
  String.mk (bs.map Char.ofNat)

/-- Column definition (`table::ColumnDef`): `name`, `column_type : u8`,
`size : u16`. -/
structure ColumnDef where
  name : String
  column_type : Nat
  size : Nat
deriving DecidableEq, Repr

/-- A byte-range equality condition as consumed by
`select`/`update`/`delete` (`c.range`, `c.eq_to` in `lib.rs`). -/
structure Condition where
  start : Nat
  stop : Nat
  eq_to : List Nat
deriving DecidableEq, Repr

/-- The typed errors of the engine (`table::CreateTableError` plus the
ad-hoc `io::Error` strings of `lib.rs`). -/
inductive DbError where
  | headerTableFull
  | tableExists
  | tableNameInvalid
  | storageFull
  | columnNameTooLong
  | tooManyColumns
  | columnTooBig
  | tableNotFound
  | dataLenMismatch
  | corruptData
deriving DecidableEq, Repr

/-- In-memory per-table record (`HeaderMeta` in `lib.rs`). -/
structure HeaderMeta where
  col_def_offset : Int
  meta_offset : Int
  table_offsets : List Int
  header_record_offset : Nat
  row_len : Nat
deriving DecidableEq, Repr

/-- The open database handle (`Database` in `lib.rs`): the file bytes,
the in-memory catalog mirror and the in-use page set. -/
structure DB where
  file : File
  header_table : List (String × HeaderMeta)
  in_use_pages : List Int

/-- `HashSet::insert` on the in-use page set. -/
def insertUsed (l : List Int) (x : Int) : List Int :=
  if l.contains x then l else x :: l

/-- `HashMap::insert` on the catalog mirror (replaces an existing
binding of the same name). -/
def insertTable (l : List (String × HeaderMeta)) (k : String) (v : HeaderMeta) :
    List (String × HeaderMeta) :=
  (k, v) :: l.filter fun p => !(p.1 == k)

/-- `HashMap::remove` on the catalog mirror. -/
def removeTable (l : List (String × HeaderMeta)) (k : String) :
    List (String × HeaderMeta) :=
  l.filter fun p => !(p.1 == k)

/-- Rust slice `&buf[lo..hi]`, total version. -/
def rustSlice (buf : List Nat) (lo hi : Nat) : List Nat :=
  (buf.take hi).drop lo

/-- The predicate `conditions.iter().all(|c| &buf[c.range] == c.eq_to)`. -/
def rowMatches (buf : List Nat) (conds : List Condition) : Bool :=
  conds.all fun c => rustSlice buf c.start c.stop == c.eq_to

/-- Number of iterations of `while cursor < PAGE_SIZE { cursor += w }`,
i.e. row slots visited per data page (`⌈4096 / w⌉` for `w > 0`; the
source diverges for `w = 0`, which no claim exercises). -/
def numSlots (w : Nat) : Nat :=
  if w = 0 then 0 else (PAGE_SIZE + w - 1) / w

/-- Total number of bytes spanned by the row slots of one data page. -/
def pageSpan (w : Nat) : Nat :=
  numSlots w * w

/-- The `find_spare_page` search loop: smallest page number `≥ k` not
in the set, failing with `StorageFull` at `i32::MAX`.  The fuel is the
remaining distance to `i32::MAX`, so fuel 0 is exactly the loop-exit
`offset_page == i32::MAX` failure. -/
def findSpareAux (used : List Int) : Nat → Nat → Except DbError Int
  | 0, _ => .error .storageFull
  | fuel + 1, k =>
    if used.contains (k : Int) then findSpareAux used fuel (k + 1) else .ok (k : Int)

/-- `find_spare_page`: smallest page number (starting from 0) not in
the in-use set. -/
def find_spare_page (used : List Int) : Except DbError Int :=
  findSpareAux used 2147483647 0

/-- The header free-slot scan of `create_table`: one byte read per
iteration (the source never skips to the next 32-byte record), so the
record offset found is the index of the first zero byte of page 0. -/
def findFreeHeaderByte (f : File) : List Nat → Option Nat
  | [] => none
  | j :: rest => if f j = 0 then some j else findFreeHeaderByte f rest

/-- The Header-record write sequence of `create_table` at free slot
`j`: the four consecutive `write_all` calls emitting the name-length
byte, the name bytes, the big-endian Definition page number and the
big-endian Meta page number.  (In the source the first two writes
precede the page-number searches; the searches read only the in-use
set, never the file, so bundling the four writes is sound.) -/
def writeHeaderRecord (f : File) (j name_len : Nat) (nameBytes : List Nat)
    (defPage metaPage : Int) : File :=
  writeBytes
    (writeBytes
      (writeBytes
        (writeBytes f (j * 32) [name_len])
        (j * 32 + 1) nameBytes)
      (j * 32 + 1 + name_len) (i32ToBe defPage))
    (j * 32 + 5 + name_len) (i32ToBe metaPage)

/-- The on-disk bytes of one Definition record as written by
`create_table`: length byte, name bytes, type byte, big-endian size —
written back to back with no padding to the 32-byte record boundary. -/
def colRecordBytes (d : ColumnDef) : List Nat :=
  [(strBytes d.name).length] ++ strBytes d.name ++ [d.column_type] ++ u16ToBe d.size

/-- `Database::create_table`. -/
def Database.create_table (db : DB) (table_name : String) (table_def : List ColumnDef) :
    Except DbError DB :=
  let name_len := (strBytes table_name).length
  if name_len > 23 ∨ name_len = 0 then .error .tableNameInvalid
  else if table_def.length > 128 then .error .tooManyColumns
  else if (List.lookup table_name db.header_table).isSome then .error .tableExists
  else if table_def.any (fun d => (strBytes d.name).length > 28) then .error .columnNameTooLong
  else
    let row_size := (table_def.map (·.size)).foldl (fun a s => (a + s) % 65536) 0
    if row_size > 4096 then .error .columnTooBig
    else
      match findFreeHeaderByte db.file (List.range 128) with
      | none => .error .headerTableFull
      | some j =>
        match find_spare_page db.in_use_pages with
        | .error e => .error e
        | .ok def_offset_page =>
          -- the Meta-page search starts at `def_offset_page`, which has
          -- not yet been inserted into the in-use set
          match findSpareAux db.in_use_pages (2147483647 - asU64 def_offset_page) (asU64 def_offset_page) with
          | .error e => .error e
          | .ok meta_offset_page =>
            let f := writeHeaderRecord db.file j name_len (strBytes table_name)
              def_offset_page meta_offset_page
            let used := insertUsed (insertUsed db.in_use_pages meta_offset_page) def_offset_page
            let colBytes := (table_def.map colRecordBytes).flatten
            let rest_len := PAGE_SIZE - table_def.length * 32
            let f := writeBytes f (asU64 def_offset_page * PAGE_SIZE) colBytes
            let f := writeZeros f (asU64 def_offset_page * PAGE_SIZE + colBytes.length) rest_len
            let f := writeZeros f (asU64 meta_offset_page * PAGE_SIZE) PAGE_SIZE
            .ok { file := f
                  header_table := insertTable db.header_table table_name
                    { col_def_offset := def_offset_page
                      meta_offset := meta_offset_page
                      table_offsets := []
                      header_record_offset := j
                      row_len := row_size }
                  in_use_pages := used }

/-- The Header-page parse of `Database::open`.  The position advances
by 32 bytes over a free slot but only by `9 + L` bytes over an occupied
one (the source reads name length, name, and the two page numbers and
never skips to the next record boundary). -/
def openHeader (f : File) : List Nat → Nat → List (String × HeaderMeta) → List Int →
    Except DbError (List (String × HeaderMeta) × List Int)
  | [], _, tbl, used => .ok (tbl, used)
  | hro :: rest, pos, tbl, used =>
    let len := f pos
    if len = 0 then openHeader f rest (pos + 32) tbl used
    else if len > 23 then .error .corruptData
    else
      let nameBytes := readBytes f (pos + 1) len
      let d := beToI32 (readBytes f (pos + 1 + len) 4)
      let m := beToI32 (readBytes f (pos + 5 + len) 4)
      openHeader f rest (pos + 9 + len)
        (insertTable tbl (bytesToStr nameBytes)
          { col_def_offset := d, meta_offset := m, table_offsets := []
            header_record_offset := hro, row_len := 0 })
        (insertUsed (insertUsed used d) m)

/-- The Meta-page parse of `Database::open`: after one seek to the Meta
page, 128 *consecutive* 4-byte reads (the source never skips the
remaining 28 bytes of each 32-byte record). -/
def openMetaOffsets (f : File) (moff : Int) : List Nat → List Int
  | [] => []
  | k :: rest =>
    let bs := readBytes f (asU64 moff * PAGE_SIZE + 4 * k) 4
    if bs = [0, 0, 0, 0] then openMetaOffsets f moff rest
    else beToI32 bs :: openMetaOffsets f moff rest

/-- The row-width accumulation of `Database::open`: for each 32-byte
Definition record it reads the two bytes at record offsets 30..32 as the
column size, stopping at the first zero; the sum wraps in `u16`. -/
def openRowLen (f : File) (base : Nat) : List Nat → Nat → Nat
  | [], acc => acc
  | k :: rest, acc =>
    let size := beToU16 (readBytes f (base + k * 32 + 30) 2)
    if size = 0 then acc else openRowLen f base rest ((acc + size) % 65536)

/-- The per-table second phase of `Database::open`: collect the Meta
record offsets (and mark their absolute pages in use) and recompute the
row width from the Definition page. -/
def openTables (f : File) : List (String × HeaderMeta) → List Int →
    List (String × HeaderMeta) × List Int
  | [], used => ([], used)
  | (n, hm) :: rest, used =>
    let offs := openMetaOffsets f hm.meta_offset (List.range 128)
    let used1 := offs.foldl (fun u t => insertUsed u (t + hm.meta_offset)) used
    let rl := openRowLen f (asU64 hm.col_def_offset * PAGE_SIZE) (List.range 128) 0
    let (rest1, used2) := openTables f rest used1
    ((n, { hm with table_offsets := offs, row_len := rl }) :: rest1, used2)

/-- `Database::open` on the byte contents of a file. -/
def Database.openDB (f : File) : Except DbError DB :=
  match openHeader f (List.range 128) 0 [] [0] with
  | .error e => .error e
  | .ok (tbl, used) =>
    let (tbl1, used1) := openTables f tbl used
    .ok { file := f, header_table := tbl1, in_use_pages := used1 }

/-- A parsed column descriptor as returned by `get_table_def`
(name bytes kept raw; the source decodes them lossily). -/
structure ParsedCol where
  nameBytes : List Nat
  column_type : Nat
  size : Nat
deriving DecidableEq, Repr

/-- The Definition-page walk of `get_table_def`: packed sequential
records (length, name, type, big-endian size), terminated by a zero
length byte. -/
def getDefsAux (f : File) : List Nat → Nat → List ParsedCol
  | [], _ => []
  | _ :: rest, pos =>
    let len := f pos
    if len = 0 then []
    else
      { nameBytes := readBytes f (pos + 1) len
        column_type := f (pos + 1 + len)
        size := beToU16 (readBytes f (pos + 2 + len) 2) } ::
        getDefsAux f rest (pos + 4 + len)

/-- `Database::get_table_def`. -/
def Database.get_table_def (db : DB) (table_name : String) :
    Except DbError (List ParsedCol) :=
  match List.lookup table_name db.header_table with
  | none => .error .tableNotFound
  | some meta =>
    .ok (getDefsAux db.file (List.range 128) (asU64 meta.col_def_offset * PAGE_SIZE))

/-- The in-page slot scan of `Database::insert`: starting at byte
address `base`, find the first all-zero slot of width `w` and write the
row there.  (`base` is the raw Meta record value: the source seeks to
`table_offset as u64` *without* multiplying by the page size.) -/
def insertSlots (f : File) (base w : Nat) (data : List Nat) : List Nat → Option File
  | [] => none
  | i :: rest =>
    let buf := readBytes f (base + i * w) w
    if buf.all (· == 0) then some (writeBytes f (base + i * w) data)
    else insertSlots f base w data rest

/-- The Meta-record walk of `Database::insert`. -/
def insertRecs (db : DB) (meta : HeaderMeta) (data : List Nat) :
    List Nat → Except DbError DB
  | [] => .error .storageFull
  | k :: rest =>
    let addr := asU64 meta.meta_offset * PAGE_SIZE + k * 32
    let v := beToI32 (readBytes db.file addr 4)
    if v = 0 then
      match find_spare_page db.in_use_pages with
      | .error e => .error e
      | .ok new_table =>
        let f := writeBytes db.file addr (i32ToBe new_table)
        let f := writeBytes f (asU64 new_table * PAGE_SIZE) data
        let f := writeZeros f (asU64 new_table * PAGE_SIZE + data.length)
          (PAGE_SIZE - data.length)
        .ok { db with file := f, in_use_pages := insertUsed db.in_use_pages new_table }
    else
      match insertSlots db.file (asU64 v) data.length data
          (List.range (numSlots data.length)) with
      | some f => .ok { db with file := f }
      | none => insertRecs db meta data rest

/-- `Database::insert`. -/
def Database.insert (db : DB) (table_name : String) (data : List Nat) :
    Except DbError DB :=
  match List.lookup table_name db.header_table with
  | none => .error .tableNotFound
  | some meta =>
    if data.length ≠ meta.row_len then .error .dataLenMismatch
    else insertRecs db meta data (List.range 128)

/-- The in-page slot scan of `Database::select`, threading the file it
reads from (the source holds `&mut self` but only ever reads). -/
def selectSlots (f : File) (base w : Nat) (conds : List Condition) :
    List Nat → List (List Nat) × File
  | [] => ([], f)
  | i :: rest =>
    let buf := readBytes f (base + i * w) w
    let r := selectSlots f base w conds rest
    if rowMatches buf conds then (buf :: r.1, r.2) else r

/-- The Meta-record walk of `Database::select`. -/
def selectRecs (f : File) (moff : Int) (w : Nat) (conds : List Condition) :
    List Nat → List (List Nat) × File
  | [] => ([], f)
  | k :: rest =>
    let v := beToI32 (readBytes f (asU64 moff * PAGE_SIZE + k * 32) 4)
    if v = 0 then selectRecs f moff w conds rest
    else
      let r1 := selectSlots f (asU64 v * PAGE_SIZE) w conds (List.range (numSlots w))
      let r2 := selectRecs r1.2 moff w conds rest
      (r1.1 ++ r2.1, r2.2)

/-- `Database::select`, returning the rows together with the handle
state after the call. -/
def Database.select (db : DB) (table_name : String) (conds : List Condition) :
    Except DbError (List (List Nat)) × DB :=
  match List.lookup table_name db.header_table with
  | none => (.error .tableNotFound, db)
  | some meta =>
    let r := selectRecs db.file meta.meta_offset meta.row_len conds (List.range 128)
    (.ok r.1, { db with file := r.2 })

/-- The `new_value` write loop of `Database::update`: each field is
written at `start_of_row + field.range.start`. -/
def applyFields (f : File) (start : Nat) : List Condition → File
  | [] => f
  | c :: rest => applyFields (writeBytes f (start + c.start) c.eq_to) start rest

/-- The in-page slot scan of `Database::update`: count matching rows
and rewrite each match in place. -/
def updateSlots (f : File) (base w : Nat) (conds news : List Condition) :
    List Nat → File × Nat
  | [] => (f, 0)
  | i :: rest =>
    let buf := readBytes f (base + i * w) w
    if rowMatches buf conds then
      let r := updateSlots (applyFields f (base + i * w) news) base w conds news rest
      (r.1, r.2 + 1)
    else updateSlots f base w conds news rest

/-- The Meta-record walk of `Database::update`. -/
def updateRecs (f : File) (moff : Int) (w : Nat) (conds news : List Condition) :
    List Nat → File × Nat
  | [] => (f, 0)
  | k :: rest =>
    let v := beToI32 (readBytes f (asU64 moff * PAGE_SIZE + k * 32) 4)
    if v = 0 then updateRecs f moff w conds news rest
    else
      let r1 := updateSlots f (asU64 v * PAGE_SIZE) w conds news (List.range (numSlots w))
      let r2 := updateRecs r1.1 moff w conds news rest
      (r2.1, r1.2 + r2.2)

/-- `Database::update`, returning the matched count and the new state. -/
def Database.update (db : DB) (table_name : String) (conds news : List Condition) :
    Except DbError (Nat × DB) :=
  match List.lookup table_name db.header_table with
  | none => .error .tableNotFound
  | some meta =>
    let r := updateRecs db.file meta.meta_offset meta.row_len conds news (List.range 128)
    .ok (r.2, { db with file := r.1 })

/-- The in-page slot scan of `Database::delete`: count matches and
track whether every row either matched or was already all-zero. -/
def deleteSlots (f : File) (base w : Nat) (conds : List Condition) :
    List Nat → Nat × Bool
  | [] => (0, true)
  | i :: rest =>
    let buf := readBytes f (base + i * w) w
    let r := deleteSlots f base w conds rest
    if rowMatches buf conds then (r.1 + 1, r.2)
    else if buf.any (· != 0) then (r.1, false)
    else r

/-- The Meta-record walk of `Database::delete`: a wholly obsolete page
gets its 32-byte Meta record zeroed and its raw record value removed
from the in-use set. -/
def deleteRecs (f : File) (used : List Int) (moff : Int) (w : Nat)
    (conds : List Condition) : List Nat → File × List Int × Nat
  | [] => (f, used, 0)
  | k :: rest =>
    let addr := asU64 moff * PAGE_SIZE + k * 32
    let v := beToI32 (readBytes f addr 4)
    if v = 0 then deleteRecs f used moff w conds rest
    else
      let r := deleteSlots f (asU64 v * PAGE_SIZE) w conds (List.range (numSlots w))
      let f1 := if r.2 then writeZeros f addr 32 else f
      let used1 := if r.2 then used.erase v else used
      let r2 := deleteRecs f1 used1 moff w conds rest
      (r2.1, r2.2.1, r.1 + r2.2.2)

/-- `Database::delete`, returning the matched count and the new state. -/
def Database.delete (db : DB) (table_name : String) (conds : List Condition) :
    Except DbError (Nat × DB) :=
  match List.lookup table_name db.header_table with
  | none => .error .tableNotFound
  | some meta =>
    let r := deleteRecs db.file db.in_use_pages meta.meta_offset meta.row_len conds
      (List.range 128)
    .ok (r.2.2, { db with file := r.1, in_use_pages := r.2.1 })

/-- `Database::drop`: zero the Header record (at the `u8`-wrapped byte
offset `header_record_offset * 32 % 256` the source computes) and
release the Definition, Meta and data pages. -/
def Database.drop (db : DB) (table_name : String) : Except DbError DB :=
  match List.lookup table_name db.header_table with
  | none => .error .tableNotFound
  | some meta =>
    let f := writeZeros db.file (meta.header_record_offset * 32 % 256) 32
    let used := (db.in_use_pages.erase meta.col_def_offset).erase meta.meta_offset
    let used := meta.table_offsets.foldl (fun u t => u.erase (t + meta.meta_offset)) used
    .ok { file := f
          header_table := removeTable db.header_table table_name
          in_use_pages := used }

/-- Unwrap an `Except`-valued database state, with a fallback. -/
def okD (x : Except DbError DB) (d : DB) : DB :=
  match x with
  | .ok v => v
  | .error _ => d

/-- Unwrap the state component of a counting operation, with a
fallback. -/
def okPairD (x : Except DbError (Nat × DB)) (d : DB) : DB :=
  match x with
  | .ok (_, v) => v
  | .error _ => d

/-- The count component of a counting operation (0 on error). -/
def okCount (x : Except DbError (Nat × DB)) : Nat :=
  match x with
  | .ok (n, _) => n
  | .error _ => 0

/-- Whether an `Except` result is `ok`. -/
def isOkE {α : Type} (x : Except DbError α) : Bool :=
  match x with
  | .ok _ => true
  | .error _ => false

/-- The row list of a `select` result (empty on error). -/
def rowsOf (x : Except DbError (List (List Nat))) : List (List Nat) :=
  match x with
  | .ok l => l
  | .error _ => []

/-- The single 4-byte column of the spec's scenario A. -/
def colA : ColumnDef := { name := "a", column_type := 1, size := 4 }

/-- A freshly created and opened database file: one page of zeros, no
tables, page 0 in use. -/
def db0 : DB := { file := fun _ => 0, header_table := [], in_use_pages := [0] }

/-- Scenario A after `create_table("t", [{name:"a", type:1, size:4}])`. -/
def dbT : DB := okD (Database.create_table db0 "t" [colA]) db0

/-- Scenario A after `insert("t", [0,0,0,1])`. -/
def dbA : DB := okD (Database.insert dbT "t" [0, 0, 0, 1]) db0

/-- Scenario A's state after a second insert, `insert("t", [0,0,0,3])`. -/
def dbA2 : DB := okD (Database.insert dbA "t" [0, 0, 0, 3]) db0

/-- The scenario B condition `{range: 0..4, value: [0,0,0,1]}`. -/
def condB : Condition := { start := 0, stop := 4, eq_to := [0, 0, 0, 1] }

/-- The scenario B new value `{range: 0..4, value: [0,0,0,2]}`. -/
def newB : Condition := { start := 0, stop := 4, eq_to := [0, 0, 0, 2] }

/-- Scenario B after `update("t", [condB], [newB])`. -/
def dbB : DB := okPairD (Database.update dbA "t" [condB] [newB]) db0

/-- The scenario C condition `{range: 0..4, value: [0,0,0,2]}`. -/
def condC : Condition := { start := 0, stop := 4, eq_to := [0, 0, 0, 2] }

/-- Scenario C after `delete("t", [condC])`. -/
def dbC : DB := okPairD (Database.delete dbB "t" [condC]) db0

/-- The `i32` value stored in Meta record `k` of the Meta page at
`moff`, as the row engine reads it (32-byte record stride). -/
def recVal (f : File) (moff : Int) (k : Nat) : Int :=
  beToI32 (readBytes f (asU64 moff * PAGE_SIZE + k * 32) 4)

/-- The byte address at which the row engine scans the data page of
Meta record `k` (`table_offset as u64 * PAGE_SIZE`). -/
def pageBase (f : File) (moff : Int) (k : Nat) : Nat :=
  asU64 (recVal f moff k) * PAGE_SIZE

/-- Number of row slots of the page at `base` matching `conds`, all
read from the fixed file `f`. -/
def countMatchesPage (f : File) (base w : Nat) (conds : List Condition) : Nat :=
  ((List.range (numSlots w)).filter fun i =>
    rowMatches (readBytes f (base + i * w) w) conds).length

/-- Number of row slots of a table matching `conds`, all read from the
fixed file `f`: the pre-state match count of an `update`/`delete`
call. -/
def matchCount (f : File) (moff : Int) (w : Nat) (conds : List Condition) : Nat :=
  ((List.range 128).map fun k =>
    if recVal f moff k = 0 then 0
    else countMatchesPage f (pageBase f moff k) w conds).sum

/-- A database state whose header bytes 10..32 are nonzero, to observe
which record bytes `create_table` leaves untouched. -/
def db0g : DB :=
  { file := fun a => if 10 ≤ a ∧ a < 32 then 99 else 0
    header_table := []
    in_use_pages := [0] }

/-- `create_table("t", [colA])` on `db0g`. -/
def dbG : DB := okD (Database.create_table db0g "t" [colA]) db0g

/-- A column of size 13108; five of them sum to 65540, which wraps to 4
in the `u16` accumulation. -/
def colW : ColumnDef := { name := "x", column_type := 1, size := 13108 }

/-- Five copies of `colW`: total size 65540 > 4096, wrapped `u16` sum 4. -/
def bigCols : List ColumnDef := List.replicate 5 colW

/-- The single 5000-byte column of the spec's scenario E. -/
def colBig : ColumnDef := { name := "x", column_type := 1, size := 5000 }

/-- A directly constructed single-table state used to instantiate the
update-count theorem: Meta page 1 with record 0 pointing at data page 2,
whose slot 0 holds `[0,0,0,1]`. -/
def fileW : File :=
  writeBytes (writeBytes (fun _ => 0) 4096 [0, 0, 0, 2]) 8192 [0, 0, 0, 1]

/-- The catalog record of the table of `fileW`. -/
def metaW : HeaderMeta :=
  { col_def_offset := 1, meta_offset := 1, table_offsets := [2]
    header_record_offset := 0, row_len := 4 }

/-- The database handle on `fileW`. -/
def dbW : DB := { file := fileW, header_table := [("t", metaW)], in_use_pages := [2, 1, 0] }

end Rustub

deriving instance DecidableEq for Except

namespace Rustub

theorem readBytes_congr {f g : File} {a n : Nat}
    (h : ∀ j, j < n → f (a + j) = g (a + j)) :
    readBytes f a n = readBytes g a n := by
  unfold readBytes
  exact List.map_congr_left fun j hj => h j (List.mem_range.mp hj)

theorem writeBytes_eq_outside {f : File} {a : Nat} {bs : List Nat} {x : Nat}
    (h : x < a ∨ a + bs.length ≤ x) : writeBytes f a bs x = f x := by
  unfold writeBytes
  have hn : ¬(a ≤ x ∧ x < a + bs.length) := by omega
  simp [hn]

theorem writeZeros_eq_outside {f : File} {a n x : Nat}
    (h : x < a ∨ a + n ≤ x) : writeZeros f a n x = f x := by
  unfold writeZeros
  have hn : ¬(a ≤ x ∧ x < a + n) := by omega
  simp [hn]

theorem readBytes_writeBytes (f : File) (a : Nat) (bs : List Nat) :
    readBytes (writeBytes f a bs) a bs.length = bs := by
  unfold readBytes writeBytes
  apply List.ext_getElem
  · simp
  · intro i h1 h2
    simp only [List.getElem_map, List.getElem_range]
    have hc : a ≤ a + i ∧ a + i < a + bs.length := by
      simp only [List.length_map, List.length_range] at h1
      omega
    rw [if_pos hc]
    have he : a + i - a = i := by omega
    rw [he]
    exact List.getD_eq_getElem bs 0 h2

theorem findFreeHeaderByte_spec (f : File) :
    ∀ (l : List Nat) (j : Nat), findFreeHeaderByte f l = some j →
      j ∈ l ∧ f j = 0 := by
  intro l
  induction l with
  | nil => intro j h; cases h
  | cons i rest ih =>
    intro j h
    unfold findFreeHeaderByte at h
    by_cases hz : f i = 0
    · rw [if_pos hz] at h
      cases h
      exact ⟨by simp, hz⟩
    · rw [if_neg hz] at h
      obtain ⟨h1, h2⟩ := ih j h
      exact ⟨by simp [h1], h2⟩

theorem findSpareAux_ok_spec (used : List Int) :
    ∀ (fuel k : Nat) (v : Int), findSpareAux used fuel k = .ok v →
      ∃ k2 : Nat, v = (k2 : Int) ∧ k ≤ k2 ∧ k2 < k + fuel ∧
        used.contains (k2 : Int) = false := by
  intro fuel
  induction fuel with
  | zero => intro k v h; cases h
  | succ n ih =>
    intro k v h
    unfold findSpareAux at h
    by_cases hc : used.contains (k : Int)
    · rw [if_pos hc] at h
      obtain ⟨k2, h1, h2, h3, h4⟩ := ih (k + 1) v h
      exact ⟨k2, h1, by omega, by omega, h4⟩
    · rw [if_neg hc] at h
      cases h
      exact ⟨k, rfl, Nat.le_refl k, by omega, by simpa using hc⟩

theorem asU64_ofNat {k : Nat} (h : k < 18446744073709551616) :
    asU64 (k : Int) = k := by
  unfold asU64
  have h1 : (k : Int) % 18446744073709551616 = k :=
    Int.emod_eq_of_lt (by exact_mod_cast Nat.zero_le k) (by exact_mod_cast h)
  rw [h1]
  exact Int.toNat_natCast k

theorem contains_of_mem {l : List Int} {x : Int} (h : x ∈ l) :
    l.contains x = true := by
  simpa using h

theorem lookup_insertTable_self (l : List (String × HeaderMeta)) (k : String)
    (v : HeaderMeta) : List.lookup k (insertTable l k v) = some v := by
  simp [insertTable, List.lookup]

theorem applyFields_eq_outside {w : Nat} {news : List Condition}
    (hnews : ∀ c ∈ news, c.start + c.eq_to.length ≤ w) :
    ∀ (f : File) (start x : Nat), (x < start ∨ start + w ≤ x) →
      applyFields f start news x = f x := by
  induction news with
  | nil => intro f start x _; rfl
  | cons c rest ih =>
    intro f start x hx
    have hc := hnews c (by simp)
    have hrest : ∀ c2 ∈ rest, c2.start + c2.eq_to.length ≤ w := by
      intro c2 hc2; exact hnews c2 (by simp [hc2])
    show applyFields (writeBytes f (start + c.start) c.eq_to) start rest x = f x
    rw [ih hrest (writeBytes f (start + c.start) c.eq_to) start x hx]
    exact writeBytes_eq_outside (by omega)

theorem slot_end_le_span {w j : Nat} (hj : j < numSlots w) :
    j * w + w ≤ pageSpan w := by
  unfold pageSpan
  have h1 : (j + 1) * w ≤ numSlots w * w := Nat.mul_le_mul_right w (by omega)
  calc j * w + w = (j + 1) * w := by ring
    _ ≤ numSlots w * w := h1

theorem slot_region_disjoint {w j j2 : Nat} (hne : j ≠ j2) {base x : Nat}
    (hlo : base + j2 * w ≤ x) (hhi : x < base + j2 * w + w) :
    x < base + j * w ∨ base + j * w + w ≤ x := by
  rcases Nat.lt_or_ge j j2 with h | h
  · right
    have h1 : (j + 1) * w ≤ j2 * w := Nat.mul_le_mul_right w (by omega)
    have h2 : j * w + w ≤ j2 * w := by calc j * w + w = (j + 1) * w := by ring
                                       _ ≤ j2 * w := h1
    omega
  · have hj2 : j2 < j := by omega
    left
    have h1 : (j2 + 1) * w ≤ j * w := Nat.mul_le_mul_right w (by omega)
    have h2 : j2 * w + w ≤ j * w := by calc j2 * w + w = (j2 + 1) * w := by ring
                                        _ ≤ j * w := h1
    omega

theorem findSpareAux_error_eq {used : List Int} {e : DbError} :
    ∀ fuel k, findSpareAux used fuel k = .error e → e = .storageFull := by
  intro fuel
  induction fuel with
  | zero => intro k h; cases h; rfl
  | succ n ih =>
    intro k h
    unfold findSpareAux at h
    by_cases hc : used.contains (k : Int)
    · rw [if_pos hc] at h; exact ih (k + 1) h
    · rw [if_neg hc] at h; cases h

theorem updateSlots_spec (base w : Nat) (conds news : List Condition)
    (hnews : ∀ c ∈ news, c.start + c.eq_to.length ≤ w) :
    ∀ (l : List Nat) (f f0 : File), l.Nodup →
      (∀ j ∈ l, j < numSlots w) →
      (∀ x j, j ∈ l → base + j * w ≤ x → x < base + j * w + w → f x = f0 x) →
      (updateSlots f base w conds news l).2 =
        (l.filter fun j => rowMatches (readBytes f0 (base + j * w) w) conds).length ∧
      ∀ x, (x < base ∨ base + pageSpan w ≤ x) →
        (updateSlots f base w conds news l).1 x = f x := by
  intro l
  induction l with
  | nil => intro f f0 _ _ _; exact ⟨rfl, fun x _ => rfl⟩
  | cons j rest ih =>
    intro f f0 hnd hlt hag
    have hjmem : j ∈ j :: rest := by simp
    have hbuf : readBytes f (base + j * w) w = readBytes f0 (base + j * w) w :=
      readBytes_congr fun i hi => hag (base + j * w + i) j hjmem (by omega) (by omega)
    have hjnot : j ∉ rest := (List.nodup_cons.mp hnd).1
    have hndr : rest.Nodup := (List.nodup_cons.mp hnd).2
    have hltr : ∀ j2 ∈ rest, j2 < numSlots w := fun j2 h2 => hlt j2 (by simp [h2])
    have hsp : j * w + w ≤ pageSpan w := slot_end_le_span (hlt j hjmem)
    simp only [updateSlots]
    rw [hbuf]
    by_cases hm : rowMatches (readBytes f0 (base + j * w) w) conds
    · simp only [hm, if_true]
      have hag1 : ∀ x j2, j2 ∈ rest → base + j2 * w ≤ x → x < base + j2 * w + w →
          applyFields f (base + j * w) news x = f0 x := by
        intro x j2 h2 hlo hhi
        have hne : j ≠ j2 := fun he => hjnot (he ▸ h2)
        rw [applyFields_eq_outside hnews f (base + j * w) x
          (slot_region_disjoint hne hlo hhi)]
        exact hag x j2 (by simp [h2]) hlo hhi
      obtain ⟨ihc, ihf⟩ := ih (applyFields f (base + j * w) news) f0 hndr hltr hag1
      constructor
      · rw [List.filter_cons_of_pos (by simpa using hm), ihc]
        simp [Nat.add_comm]
      · intro x hx
        rw [ihf x hx]
        refine applyFields_eq_outside hnews f (base + j * w) x ?_
        omega
    · simp only [hm, Bool.false_eq_true, if_false]
      obtain ⟨ihc, ihf⟩ := ih f f0 hndr hltr
        (fun x j2 h2 hlo hhi => hag x j2 (by simp [h2]) hlo hhi)
      constructor
      · rw [List.filter_cons_of_neg (by simpa using hm), ihc]
      · exact ihf

theorem updateRecs_spec (moff : Int) (w : Nat) (conds news : List Condition)
    (f0 : File)
    (hnews : ∀ c ∈ news, c.start + c.eq_to.length ≤ w)
    (hmeta : ∀ k, k < 128 → recVal f0 moff k ≠ 0 →
      pageBase f0 moff k + pageSpan w ≤ asU64 moff * PAGE_SIZE ∨
      asU64 moff * PAGE_SIZE + PAGE_SIZE ≤ pageBase f0 moff k)
    (hpair : ∀ j, j < 128 → ∀ k, k < 128 → j ≠ k → recVal f0 moff j ≠ 0 →
      recVal f0 moff k ≠ 0 →
      pageBase f0 moff j + pageSpan w ≤ pageBase f0 moff k ∨
      pageBase f0 moff k + pageSpan w ≤ pageBase f0 moff j) :
    ∀ (ks : List Nat) (f : File), ks.Nodup → (∀ k ∈ ks, k < 128) →
      (∀ x, asU64 moff * PAGE_SIZE ≤ x → x < asU64 moff * PAGE_SIZE + PAGE_SIZE →
        f x = f0 x) →
      (∀ x k, k ∈ ks → recVal f0 moff k ≠ 0 → pageBase f0 moff k ≤ x →
        x < pageBase f0 moff k + pageSpan w → f x = f0 x) →
      (updateRecs f moff w conds news ks).2 =
        (ks.map fun k => if recVal f0 moff k = 0 then 0
          else countMatchesPage f0 (pageBase f0 moff k) w conds).sum ∧
      ∀ x, (∀ k ∈ ks, recVal f0 moff k ≠ 0 →
          x < pageBase f0 moff k ∨ pageBase f0 moff k + pageSpan w ≤ x) →
        (updateRecs f moff w conds news ks).1 x = f x := by
  intro ks
  induction ks with
  | nil => intro f _ _ _ _; exact ⟨rfl, fun x _ => rfl⟩
  | cons k rest ih =>
    intro f hnd hlt hmAg hpAg
    have hkmem : k ∈ k :: rest := by simp
    have hk : k < 128 := hlt k hkmem
    have hknot : k ∉ rest := (List.nodup_cons.mp hnd).1
    have hndr : rest.Nodup := (List.nodup_cons.mp hnd).2
    have hltr : ∀ k2 ∈ rest, k2 < 128 := fun k2 h2 => hlt k2 (by simp [h2])
    have hrb : readBytes f (asU64 moff * PAGE_SIZE + k * 32) 4 =
        readBytes f0 (asU64 moff * PAGE_SIZE + k * 32) 4 := by
      refine readBytes_congr fun i hi => hmAg _ (by omega) ?_
      have : k * 32 + i < PAGE_SIZE := by unfold PAGE_SIZE; omega
      omega
    have e1 : beToI32 (readBytes f0 (asU64 moff * PAGE_SIZE + k * 32) 4) =
        recVal f0 moff k := rfl
    simp only [updateRecs]
    rw [hrb, e1]
    by_cases hz : recVal f0 moff k = 0
    · simp only [hz, if_true]
      obtain ⟨ihc, ihf⟩ := ih f hndr hltr hmAg
        (fun x k2 h2 hz2 hlo hhi => hpAg x k2 (by simp [h2]) hz2 hlo hhi)
      constructor
      · rw [ihc]; simp [hz]
      · intro x hx
        exact ihf x fun k2 h2 hz2 => hx k2 (by simp [h2]) hz2
    · simp only [hz, if_false]
      have e2 : asU64 (recVal f0 moff k) * PAGE_SIZE = pageBase f0 moff k := rfl
      rw [e2]
      obtain ⟨hc1, hf1⟩ := updateSlots_spec (pageBase f0 moff k) w conds news hnews
        (List.range (numSlots w)) f f0 (List.nodup_range _)
        (fun j hj => List.mem_range.mp hj)
        (by
          intro x j hj hlo hhi
          have hjlt : j < numSlots w := List.mem_range.mp hj
          have hsp : j * w + w ≤ pageSpan w := slot_end_le_span hjlt
          exact hpAg x k hkmem hz (by omega) (by omega))
      have e3 : ((List.range (numSlots w)).filter fun i =>
          rowMatches (readBytes f0 (pageBase f0 moff k + i * w) w) conds).length =
          countMatchesPage f0 (pageBase f0 moff k) w conds := rfl
      rw [e3] at hc1
      have hd := hmeta k hk hz
      have hmAg1 : ∀ x, asU64 moff * PAGE_SIZE ≤ x →
          x < asU64 moff * PAGE_SIZE + PAGE_SIZE →
          (updateSlots f (pageBase f0 moff k) w conds news
            (List.range (numSlots w))).1 x = f0 x := by
        intro x hx1 hx2
        rw [hf1 x (by omega)]
        exact hmAg x hx1 hx2
      have hpAg1 : ∀ x k2, k2 ∈ rest → recVal f0 moff k2 ≠ 0 →
          pageBase f0 moff k2 ≤ x → x < pageBase f0 moff k2 + pageSpan w →
          (updateSlots f (pageBase f0 moff k) w conds news
            (List.range (numSlots w))).1 x = f0 x := by
        intro x k2 h2 hz2 hlo hhi
        have hne : k ≠ k2 := fun he => hknot (he ▸ h2)
        have hd2 := hpair k hk k2 (hltr k2 h2) hne hz hz2
        rw [hf1 x (by omega)]
        exact hpAg x k2 (by simp [h2]) hz2 hlo hhi
      obtain ⟨ihc, ihf⟩ := ih (updateSlots f (pageBase f0 moff k) w conds news
        (List.range (numSlots w))).1 hndr hltr hmAg1 hpAg1
      constructor
      · rw [ihc, hc1]; simp [hz]
      · intro x hx
        rw [ihf x fun k2 h2 hz2 => hx k2 (by simp [h2]) hz2]
        exact hf1 x (hx k hkmem hz)

theorem selectSlots_snd (base w : Nat) (conds : List Condition) :
    ∀ (l : List Nat) (f : File), (selectSlots f base w conds l).2 = f := by
  intro l
  induction l with
  | nil => intro f; rfl
  | cons i rest ih =>
    intro f
    show (let r := selectSlots f base w conds rest;
      if rowMatches (readBytes f (base + i * w) w) conds
      then (readBytes f (base + i * w) w :: r.1, r.2) else r).2 = f
    by_cases h : rowMatches (readBytes f (base + i * w) w) conds
    · simp only [h, if_true]; exact ih f
    · simp only [h, if_false]; exact ih f

theorem selectRecs_snd (moff : Int) (w : Nat) (conds : List Condition) :
    ∀ (ks : List Nat) (f : File), (selectRecs f moff w conds ks).2 = f := by
  intro ks
  induction ks with
  | nil => intro f; rfl
  | cons k rest ih =>
    intro f
    show (if beToI32 (readBytes f (asU64 moff * PAGE_SIZE + k * 32) 4) = 0
      then selectRecs f moff w conds rest
      else
        let r1 := selectSlots f (asU64 (beToI32 (readBytes f (asU64 moff * PAGE_SIZE + k * 32) 4)) * PAGE_SIZE) w conds (List.range (numSlots w))
        let r2 := selectRecs r1.2 moff w conds rest
        (r1.1 ++ r2.1, r2.2)).2 = f
    by_cases h : beToI32 (readBytes f (asU64 moff * PAGE_SIZE + k * 32) 4) = 0
    · simp only [h, if_true]; exact ih f
    · simp only [h, if_false]
      rw [ih]
      exact selectSlots_snd _ _ _ _ _

theorem deleteSlots_congr (base w : Nat) (conds : List Condition) :
    ∀ (l : List Nat) (f f0 : File),
      (∀ x j, j ∈ l → base + j * w ≤ x → x < base + j * w + w → f x = f0 x) →
      deleteSlots f base w conds l = deleteSlots f0 base w conds l := by
  intro l
  induction l with
  | nil => intro f f0 _; rfl
  | cons j rest ih =>
    intro f f0 hag
    have hbuf : readBytes f (base + j * w) w = readBytes f0 (base + j * w) w :=
      readBytes_congr fun i hi => hag _ j (by simp) (by omega) (by omega)
    simp only [deleteSlots]
    rw [hbuf, ih f f0 fun x j2 h2 hlo hhi => hag x j2 (by simp [h2]) hlo hhi]

theorem deleteSlots_flag (base w : Nat) (conds : List Condition) :
    ∀ (l : List Nat) (f : File),
      (∀ j ∈ l, rowMatches (readBytes f (base + j * w) w) conds = true ∨
        (readBytes f (base + j * w) w).all (· == 0) = true) →
      (deleteSlots f base w conds l).2 = true := by
  intro l
  induction l with
  | nil => intro f _; rfl
  | cons j rest ih =>
    intro f h
    simp only [deleteSlots]
    have hrest := ih f fun j2 h2 => h j2 (by simp [h2])
    by_cases hm : rowMatches (readBytes f (base + j * w) w) conds
    · simp [hm, hrest]
    · rcases h j (by simp) with hm2 | hz
      · exact absurd hm2 hm
      · have hany : (readBytes f (base + j * w) w).any (· != 0) = false := by
          rw [List.any_eq_false]
          intro b hb
          have hb0 : b = 0 := by simpa using List.all_eq_true.mp hz b hb
          simp [hb0]
        simp [hm, hany, hrest]

theorem deleteRecs_file_frame (moff : Int) (w : Nat) (conds : List Condition) :
    ∀ (ks : List Nat) (f : File) (used : List Int) (x : Nat),
      (∀ k ∈ ks, ¬(asU64 moff * PAGE_SIZE + k * 32 ≤ x ∧
        x < asU64 moff * PAGE_SIZE + k * 32 + 32)) →
      (deleteRecs f used moff w conds ks).1 x = f x := by
  intro ks
  induction ks with
  | nil => intro f used x _; rfl
  | cons k rest ih =>
    intro f used x hx
    have hxr : ∀ k2 ∈ rest, ¬(asU64 moff * PAGE_SIZE + k2 * 32 ≤ x ∧
        x < asU64 moff * PAGE_SIZE + k2 * 32 + 32) :=
      fun k2 h2 => hx k2 (by simp [h2])
    simp only [deleteRecs]
    by_cases hv : beToI32 (readBytes f (asU64 moff * PAGE_SIZE + k * 32) 4) = 0
    · rw [if_pos hv]
      exact ih f used x hxr
    · rw [if_neg hv]
      by_cases he : (deleteSlots f
          (asU64 (beToI32 (readBytes f (asU64 moff * PAGE_SIZE + k * 32) 4)) * PAGE_SIZE)
          w conds (List.range (numSlots w))).2
      · simp only [he, if_true]
        rw [ih _ _ x hxr]
        exact writeZeros_eq_outside (by have := hx k (by simp); omega)
      · simp only [he, Bool.false_eq_true, if_false]
        exact ih f used x hxr

theorem deleteRecs_used_mono (moff : Int) (w : Nat) (conds : List Condition) :
    ∀ (ks : List Nat) (f : File) (used : List Int) (v : Int),
      v ∈ (deleteRecs f used moff w conds ks).2.1 → v ∈ used := by
  intro ks
  induction ks with
  | nil => intro f used v hv; exact hv
  | cons k rest ih =>
    intro f used v hv
    simp only [deleteRecs] at hv
    by_cases hz : beToI32 (readBytes f (asU64 moff * PAGE_SIZE + k * 32) 4) = 0
    · rw [if_pos hz] at hv
      exact ih f used v hv
    · rw [if_neg hz] at hv
      by_cases he : (deleteSlots f
          (asU64 (beToI32 (readBytes f (asU64 moff * PAGE_SIZE + k * 32) 4)) * PAGE_SIZE)
          w conds (List.range (numSlots w))).2
      · simp only [he, if_true] at hv
        exact List.mem_of_mem_erase (ih _ _ v hv)
      · simp only [he, Bool.false_eq_true, if_false] at hv
        exact ih f used v hv

theorem deleteRecs_reclaims (moff : Int) (w : Nat) (conds : List Condition) (f0 : File)
    (hmeta : ∀ k2, k2 < 128 → recVal f0 moff k2 ≠ 0 →
      pageBase f0 moff k2 + pageSpan w ≤ asU64 moff * PAGE_SIZE ∨
      asU64 moff * PAGE_SIZE + PAGE_SIZE ≤ pageBase f0 moff k2) :
    ∀ (ks : List Nat) (f : File) (used : List Int), ks.Nodup → used.Nodup →
      (∀ k2 ∈ ks, k2 < 128) →
      (∀ x k2, k2 ∈ ks → asU64 moff * PAGE_SIZE + k2 * 32 ≤ x →
        x < asU64 moff * PAGE_SIZE + k2 * 32 + 32 → f x = f0 x) →
      (∀ x k2, k2 < 128 → recVal f0 moff k2 ≠ 0 → pageBase f0 moff k2 ≤ x →
        x < pageBase f0 moff k2 + pageSpan w → f x = f0 x) →
      ∀ k ∈ ks, recVal f0 moff k ≠ 0 →
        (deleteSlots f0 (pageBase f0 moff k) w conds (List.range (numSlots w))).2 = true →
        (∀ i, i < 32 → (deleteRecs f used moff w conds ks).1
          (asU64 moff * PAGE_SIZE + k * 32 + i) = 0) ∧
        recVal f0 moff k ∉ (deleteRecs f used moff w conds ks).2.1 := by
  intro ks
  induction ks with
  | nil => intro f used _ _ _ _ _ k hk; cases hk
  | cons k0 rest ih =>
    intro f used hnd hnu hlt hrecAg hpageAg k hkmem hz hflag
    have hps : PAGE_SIZE = 4096 := rfl
    have hk0 : k0 < 128 := hlt k0 (by simp)
    have hk0not : k0 ∉ rest := (List.nodup_cons.mp hnd).1
    have hndr : rest.Nodup := (List.nodup_cons.mp hnd).2
    have hltr : ∀ k2 ∈ rest, k2 < 128 := fun k2 h2 => hlt k2 (by simp [h2])
    have hrecAgr : ∀ x k2, k2 ∈ rest → asU64 moff * PAGE_SIZE + k2 * 32 ≤ x →
        x < asU64 moff * PAGE_SIZE + k2 * 32 + 32 → f x = f0 x :=
      fun x k2 h2 hlo hhi => hrecAg x k2 (by simp [h2]) hlo hhi
    have hv : beToI32 (readBytes f (asU64 moff * PAGE_SIZE + k0 * 32) 4) =
        recVal f0 moff k0 := by
      rw [readBytes_congr fun i hi => hrecAg _ k0 (by simp) (by omega) (by omega)]
      rfl
    simp only [deleteRecs]
    rw [hv]
    by_cases hz0 : recVal f0 moff k0 = 0
    · rw [if_pos hz0]
      have hkr : k ∈ rest := by
        rcases List.mem_cons.mp hkmem with he | hr
        · exact absurd (he ▸ hz0) hz
        · exact hr
      exact ih f used hndr hnu hltr hrecAgr hpageAg k hkr hz hflag
    · rw [if_neg hz0]
      have e2 : asU64 (recVal f0 moff k0) * PAGE_SIZE = pageBase f0 moff k0 := rfl
      rw [e2]
      have hds : deleteSlots f (pageBase f0 moff k0) w conds (List.range (numSlots w)) =
          deleteSlots f0 (pageBase f0 moff k0) w conds (List.range (numSlots w)) := by
        refine deleteSlots_congr _ _ _ _ f f0 ?_
        intro x j hj hlo hhi
        have hsp := slot_end_le_span (List.mem_range.mp hj)
        exact hpageAg x k0 hk0 hz0 (by omega) (by omega)
      rw [hds]
      -- agreement hypotheses for the state after this record's action,
      -- whichever branch was taken
      have hrecAg1 : ∀ (g : File), (∀ y, (y < asU64 moff * PAGE_SIZE + k0 * 32 ∨
            asU64 moff * PAGE_SIZE + k0 * 32 + 32 ≤ y) → g y = f y) →
          ∀ x k2, k2 ∈ rest → asU64 moff * PAGE_SIZE + k2 * 32 ≤ x →
            x < asU64 moff * PAGE_SIZE + k2 * 32 + 32 → g x = f0 x := by
        intro g hg x k2 h2 hlo hhi
        have hne : k2 ≠ k0 := fun he => hk0not (he ▸ h2)
        rw [hg x (by omega)]
        exact hrecAgr x k2 h2 hlo hhi
      have hpageAg1 : ∀ (g : File), (∀ y, (y < asU64 moff * PAGE_SIZE + k0 * 32 ∨
            asU64 moff * PAGE_SIZE + k0 * 32 + 32 ≤ y) → g y = f y) →
          ∀ x k2, k2 < 128 → recVal f0 moff k2 ≠ 0 → pageBase f0 moff k2 ≤ x →
            x < pageBase f0 moff k2 + pageSpan w → g x = f0 x := by
        intro g hg x k2 h2 hz2 hlo hhi
        have hd := hmeta k2 h2 hz2
        rw [hg x (by omega)]
        exact hpageAg x k2 h2 hz2 hlo hhi
      rcases List.mem_cons.mp hkmem with hkk | hkr
      · -- the record under scrutiny is the one being processed
        rw [hkk] at hz hflag ⊢
        rw [if_pos hflag, if_pos hflag]
        constructor
        · intro i hi
          rw [deleteRecs_file_frame moff w conds rest _ _ _ (by
            intro k2 h2
            have hne : k2 ≠ k0 := fun he => hk0not (he ▸ h2)
            omega)]
          simp only [writeZeros]
          rw [if_pos (by omega)]
        · intro hmem
          have hin : recVal f0 moff k0 ∈ used.erase (recVal f0 moff k0) :=
            deleteRecs_used_mono moff w conds rest _ _ _ hmem
          exact ((List.Nodup.mem_erase_iff hnu).mp hin).1 rfl
      · -- the record under scrutiny comes later in the walk
        have hkne : k ≠ k0 := fun he => hk0not (he ▸ hkr)
        by_cases he : (deleteSlots f0 (pageBase f0 moff k0) w conds
            (List.range (numSlots w))).2
        · simp only [he, if_true]
          refine ih (writeZeros f (asU64 moff * PAGE_SIZE + k0 * 32) 32)
            (used.erase (recVal f0 moff k0)) hndr (List.Nodup.erase _ hnu) hltr
            (hrecAg1 _ fun y hy => writeZeros_eq_outside hy)
            (hpageAg1 _ fun y hy => writeZeros_eq_outside hy) k hkr hz hflag
        · simp only [he, Bool.false_eq_true, if_false]
          exact ih f used hndr hnu hltr hrecAgr hpageAg k hkr hz hflag

theorem writeHeaderRecord_layout (f : File) (j : Nat) (nameBytes : List Nat)
    (defPage metaPage : Int) :
    writeHeaderRecord f j nameBytes.length nameBytes defPage metaPage (j * 32) =
      nameBytes.length ∧
    readBytes (writeHeaderRecord f j nameBytes.length nameBytes defPage metaPage)
      (j * 32 + 1) nameBytes.length = nameBytes ∧
    readBytes (writeHeaderRecord f j nameBytes.length nameBytes defPage metaPage)
      (j * 32 + 1 + nameBytes.length) 4 = i32ToBe defPage ∧
    readBytes (writeHeaderRecord f j nameBytes.length nameBytes defPage metaPage)
      (j * 32 + 5 + nameBytes.length) 4 = i32ToBe metaPage ∧
    ∀ o, 9 + nameBytes.length ≤ o →
      writeHeaderRecord f j nameBytes.length nameBytes defPage metaPage (j * 32 + o) =
        f (j * 32 + o) := by
  have l4d : (i32ToBe defPage).length = 4 := rfl
  have l4m : (i32ToBe metaPage).length = 4 := rfl
  have l1 : ([nameBytes.length] : List Nat).length = 1 := rfl
  unfold writeHeaderRecord
  refine ⟨?_, ?_, ?_, ?_, ?_⟩
  · rw [writeBytes_eq_outside (by omega), writeBytes_eq_outside (by omega),
      writeBytes_eq_outside (by omega)]
    unfold writeBytes
    rw [if_pos (by omega)]
    simp
  · refine (readBytes_congr fun i hi => ?_).trans
      (readBytes_writeBytes (writeBytes f (j * 32) [nameBytes.length])
        (j * 32 + 1) nameBytes)
    rw [writeBytes_eq_outside (by omega), writeBytes_eq_outside (by omega)]
  · have h := readBytes_writeBytes
      (writeBytes (writeBytes f (j * 32) [nameBytes.length]) (j * 32 + 1) nameBytes)
      (j * 32 + 1 + nameBytes.length) (i32ToBe defPage)
    rw [l4d] at h
    exact (readBytes_congr fun i hi => writeBytes_eq_outside (by omega)).trans h
  · have h := readBytes_writeBytes
      (writeBytes
        (writeBytes (writeBytes f (j * 32) [nameBytes.length]) (j * 32 + 1) nameBytes)
        (j * 32 + 1 + nameBytes.length) (i32ToBe defPage))
      (j * 32 + 5 + nameBytes.length) (i32ToBe metaPage)
    rw [l4m] at h
    exact h
  · intro o ho
    rw [writeBytes_eq_outside (by omega), writeBytes_eq_outside (by omega),
      writeBytes_eq_outside (by omega), writeBytes_eq_outside (by omega)]

theorem create_table_header_bytes (db : DB) (table_name : String)
    (table_def : List ColumnDef) (db2 : DB) (meta : HeaderMeta)
    (h0 : (0 : Int) ∈ db.in_use_pages)
    (h : Database.create_table db table_name table_def = .ok db2)
    (hm : List.lookup table_name db2.header_table = some meta) :
    db2.file (meta.header_record_offset * 32) = (strBytes table_name).length ∧
    readBytes db2.file (meta.header_record_offset * 32 + 1)
      (strBytes table_name).length = strBytes table_name ∧
    readBytes db2.file
      (meta.header_record_offset * 32 + 1 + (strBytes table_name).length) 4 =
      i32ToBe meta.col_def_offset ∧
    readBytes db2.file
      (meta.header_record_offset * 32 + 5 + (strBytes table_name).length) 4 =
      i32ToBe meta.meta_offset ∧
    ∀ o, 9 + (strBytes table_name).length ≤ o → o < 32 →
      db2.file (meta.header_record_offset * 32 + o) =
        db.file (meta.header_record_offset * 32 + o) := by
  have hps : PAGE_SIZE = 4096 := rfl
  simp only [Database.create_table] at h
  split at h
  · cases h
  split at h
  · cases h
  split at h
  · cases h
  split at h
  · cases h
  split at h
  · cases h
  split at h
  · cases h
  split at h
  · cases h
  split at h
  · cases h
  rename_i hname hcols hexists hcolnames hsize x1 j heqj x2 dpage heqd x3 mpage heqm
  cases h
  rw [lookup_insertTable_self] at hm
  injection hm with hm2
  subst hm2
  dsimp only
  obtain ⟨hjmem, hjz⟩ := findFreeHeaderByte_spec db.file _ _ heqj
  have hjlt : j < 128 := List.mem_range.mp hjmem
  simp only [find_spare_page] at heqd
  obtain ⟨kd, hkd1, _, hkd3, hkd4⟩ := findSpareAux_ok_spec db.in_use_pages _ _ _ heqd
  obtain ⟨km, hkm1, hkm2, hkm3, _⟩ := findSpareAux_ok_spec db.in_use_pages _ _ _ heqm
  have h0c : db.in_use_pages.contains (0 : Int) = true := contains_of_mem h0
  have hkdpos : 1 ≤ kd := by
    rcases Nat.eq_zero_or_pos kd with he | hp
    · subst he
      simp only [Nat.cast_zero] at hkd4
      rw [hkd4] at h0c
      cases h0c
    · exact hp
  have hdA : asU64 dpage = kd := by
    rw [hkd1]
    exact asU64_ofNat (by omega)
  have hmA : asU64 mpage = km := by
    rw [hkm1]
    exact asU64_ofNat (by omega)
  have hkmpos : 1 ≤ km := by rw [hdA] at hkm2; omega
  have hbridge : ∀ (g : File) (x : Nat), x < 4096 →
      writeZeros (writeZeros (writeBytes g (asU64 dpage * PAGE_SIZE)
        ((table_def.map colRecordBytes).flatten))
        (asU64 dpage * PAGE_SIZE + ((table_def.map colRecordBytes).flatten).length)
        (PAGE_SIZE - table_def.length * 32))
        (asU64 mpage * PAGE_SIZE) PAGE_SIZE x = g x := by
    intro g x hx
    rw [writeZeros_eq_outside (Or.inl (by rw [hmA, hps]; omega))]
    rw [writeZeros_eq_outside (Or.inl (by rw [hdA, hps]; omega))]
    rw [writeBytes_eq_outside (Or.inl (by rw [hdA, hps]; omega))]
  obtain ⟨w1, w2, w3, w4, w5⟩ :=
    writeHeaderRecord_layout db.file j (strBytes table_name) dpage mpage
  refine ⟨?_, ?_, ?_, ?_, ?_⟩
  · exact (hbridge _ _ (by omega)).trans w1
  · exact (readBytes_congr fun i hi => hbridge _ _ (by omega)).trans w2
  · exact (readBytes_congr fun i hi => hbridge _ _ (by omega)).trans w3
  · exact (readBytes_congr fun i hi => hbridge _ _ (by omega)).trans w4
  · intro o ho1 ho2
    exact (hbridge _ _ (by omega)).trans (w5 o ho1)

/-- Claim C10: `select` never modifies state: for every table name and
condition list, the file contents, the in-memory catalog and the
in-use page set are identical before and after the call, whether it
returns rows or an error. -/
theorem c10_select_pure (db : DB) (table_name : String) (conds : List Condition) :
    (Database.select db table_name conds).2.file = db.file ∧
    (Database.select db table_name conds).2.header_table = db.header_table ∧
    (Database.select db table_name conds).2.in_use_pages = db.in_use_pages := by
  unfold Database.select
  cases hl : List.lookup table_name db.header_table with
  | none => exact ⟨rfl, rfl, rfl⟩
  | some meta =>
    exact ⟨selectRecs_snd meta.meta_offset meta.row_len conds (List.range 128) db.file,
      rfl, rfl⟩

/-- Claim C8: `update(name, conditions, new_fields)` returns a count equal to
the number of row slots of that table that matched every condition
immediately before the call.  The hypotheses state the documented
preconditions on the call: the table exists with a positive row width,
condition ranges lie within a row, the new fields write within a row,
and the data pages recorded in the table's Meta records are pairwise
disjoint and disjoint from the Meta page itself (which holds for every
reachable state, since the allocator never hands out an in-use page). -/
theorem c8_update_count (db : DB) (table_name : String) (meta : HeaderMeta)
    (conds news : List Condition)
    (hlook : List.lookup table_name db.header_table = some meta)
    (hw : 0 < meta.row_len)
    (hconds : ∀ c ∈ conds, c.start ≤ c.stop ∧ c.stop ≤ meta.row_len)
    (hnews : ∀ c ∈ news, c.start + c.eq_to.length ≤ meta.row_len)
    (hmeta : ∀ k, k < 128 → recVal db.file meta.meta_offset k ≠ 0 →
      pageBase db.file meta.meta_offset k + pageSpan meta.row_len ≤
        asU64 meta.meta_offset * PAGE_SIZE ∨
      asU64 meta.meta_offset * PAGE_SIZE + PAGE_SIZE ≤
        pageBase db.file meta.meta_offset k)
    (hpair : ∀ j, j < 128 → ∀ k, k < 128 → j ≠ k →
      recVal db.file meta.meta_offset j ≠ 0 → recVal db.file meta.meta_offset k ≠ 0 →
      pageBase db.file meta.meta_offset j + pageSpan meta.row_len ≤
        pageBase db.file meta.meta_offset k ∨
      pageBase db.file meta.meta_offset k + pageSpan meta.row_len ≤
        pageBase db.file meta.meta_offset j) :
    ∃ db2, Database.update db table_name conds news =
      .ok (matchCount db.file meta.meta_offset meta.row_len conds, db2) := by
  obtain ⟨hc, _⟩ := updateRecs_spec meta.meta_offset meta.row_len conds news db.file
    hnews hmeta hpair (List.range 128) db.file (List.nodup_range _)
    (fun k hk => List.mem_range.mp hk) (fun _ _ _ => rfl) (fun _ _ _ _ _ _ => rfl)
  refine ⟨{ db with file := (updateRecs db.file meta.meta_offset meta.row_len conds
    news (List.range 128)).1 }, ?_⟩
  unfold Database.update
  rw [hlook]
  have e : matchCount db.file meta.meta_offset meta.row_len conds =
      ((List.range 128).map fun k =>
        if recVal db.file meta.meta_offset k = 0 then 0
        else countMatchesPage db.file (pageBase db.file meta.meta_offset k)
          meta.row_len conds).sum := rfl
  rw [e, ← hc]

/-- Claim C6 (amended part): whenever `create_table` succeeds, the table it
installs in the catalog has row width at most 4096 (the width is the
`u16`-wrapped sum of the column sizes, which the size check bounds). -/
theorem c6_row_width_le (db : DB) (table_name : String) (table_def : List ColumnDef)
    (db2 : DB) (h : Database.create_table db table_name table_def = .ok db2) :
    ∃ m, List.lookup table_name db2.header_table = some m ∧ m.row_len ≤ 4096 := by
  simp only [Database.create_table] at h
  split at h
  · cases h
  split at h
  · cases h
  split at h
  · cases h
  split at h
  · cases h
  split at h
  · cases h
  split at h
  · cases h
  split at h
  · cases h
  split at h
  · cases h
  cases h
  exact ⟨_, lookup_insertTable_self _ _ _, by dsimp only; omega⟩

/-- Claim C9 (amended): given the earlier validations pass (name length 1..23,
at most 128 columns, column names at most 28 bytes, table not present),
`create_table` fails with `ColumnTooBig` exactly when the `u16`-wrapped
sum of the column sizes exceeds 4096 — not when the unbounded sum
does. -/
theorem c9_column_too_big_iff (db : DB) (table_name : String)
    (table_def : List ColumnDef)
    (hname1 : 1 ≤ (strBytes table_name).length)
    (hname2 : (strBytes table_name).length ≤ 23)
    (hcols : table_def.length ≤ 128)
    (habs : List.lookup table_name db.header_table = none)
    (hnames : ∀ d ∈ table_def, (strBytes d.name).length ≤ 28) :
    Database.create_table db table_name table_def = .error .columnTooBig ↔
      4096 < (table_def.map (·.size)).foldl (fun a s => (a + s) % 65536) 0 := by
  unfold Database.create_table
  rw [if_neg (by omega)]
  rw [if_neg (by omega)]
  rw [if_neg (by simp [habs])]
  rw [if_neg (by
    simp only [List.any_eq_true, decide_eq_true_eq, not_exists, not_and]
    intro d hd
    have := hnames d hd
    omega)]
  by_cases hbig : (table_def.map (·.size)).foldl (fun a s => (a + s) % 65536) 0 > 4096
  · rw [if_pos hbig]
    exact iff_of_true rfl hbig
  · rw [if_neg hbig]
    refine iff_of_false ?_ hbig
    intro h
    split at h
    · cases h
    split at h
    · rename_i e heq
      have he : e = DbError.storageFull := findSpareAux_error_eq _ _ heq
      rw [he] at h
      cases h
    split at h
    · rename_i e heq
      have he : e = DbError.storageFull := findSpareAux_error_eq _ _ heq
      rw [he] at h
      cases h
    cases h

set_option maxRecDepth 2000000

set_option maxHeartbeats 1600000

/-- Claim C6 witness: instantiating the row-width bound at scenario A's
`create_table` call. -/
theorem c6_row_width_le_witness :
    ∃ m, List.lookup "t" dbT.header_table = some m ∧ m.row_len ≤ 4096 :=
  c6_row_width_le db0 "t" [colA] dbT rfl

/-- Claim C9 witness: a single column of size 5000 fails with
`ColumnTooBig` (the spec's scenario E), via the amended theorem. -/
theorem c9_column_too_big_iff_witness :
    Database.create_table db0 "t2" [colBig] = .error .columnTooBig :=
  (c9_column_too_big_iff db0 "t2" [colBig] (by decide) (by decide) (by decide)
    rfl (by decide)).mpr (by decide)

/-- Claim C9 counterexample: five columns of size 13108 have unbounded
sum 65540 > 4096, yet `create_table` succeeds because the `u16` sum
wraps to 4. -/
theorem c9_counterexample :
    isOkE (Database.create_table db0 "tw" bigCols) = true ∧
    4096 < (bigCols.map (fun d => d.size)).sum := by decide

/-- Claim C8 witness: the update-count theorem instantiated at the
one-page state `dbW` with scenario B's condition and new value. -/
theorem c8_update_count_witness :
    ∃ db2, Database.update dbW "t" [condB] [newB] =
      .ok (matchCount dbW.file metaW.meta_offset metaW.row_len [condB], db2) :=
  c8_update_count dbW "t" metaW [condB] [newB] rfl (by decide) (by decide)
    (by decide) (by decide)
    (by
      have hone : ∀ j, j < 128 → recVal dbW.file metaW.meta_offset j ≠ 0 → j = 0 := by
        decide
      intro j hj k hk hne hzj hzk
      exact absurd ((hone j hj hzj).trans (hone k hk hzk).symm) hne)

/-- Claim C1 counterexample: in scenario A, `select("t", [])` does not
return exactly the single inserted row `[0,0,0,1]`. -/
theorem c1_counterexample :
    (Database.select dbA "t" []).1 ≠ Except.ok [[0, 0, 0, 1]] := by decide

/-- Claim C1 (amended): in scenario A (a single insert into the fresh
table), `select("t", [])` returns one row per slot of the allocated
data page — 1024 rows, of which exactly one is the inserted `[0,0,0,1]`
and the rest are the all-zero contents of the empty slots, which match
the empty condition list vacuously.  The N-row generalization fails
beyond N = 1: a second `insert("t", [0,0,0,3])` reports success but —
because its slot scan seeks to byte address `table_offset` instead of
page `table_offset` — writes the row into Header-page bytes 10..14,
leaves the data page unchanged, and a subsequent `select("t", [])`
still returns 1024 rows, none of them `[0,0,0,3]`. -/
theorem c1_select_returns_every_slot :
    (rowsOf (Database.select dbA "t" []).1).length = 1024 ∧
    (rowsOf (Database.select dbA "t" []).1).count [0, 0, 0, 1] = 1 ∧
    ((rowsOf (Database.select dbA "t" []).1).all
      fun r => r == [0, 0, 0, 1] || r == [0, 0, 0, 0]) = true ∧
    isOkE (Database.select dbA "t" []).1 = true ∧
    isOkE (Database.insert dbA "t" [0, 0, 0, 3]) = true ∧
    readBytes dbA2.file 10 4 = [0, 0, 0, 3] ∧
    (rowsOf (Database.select dbA2 "t" []).1).length = 1024 ∧
    (rowsOf (Database.select dbA2 "t" []).1).count [0, 0, 0, 3] = 0 ∧
    (rowsOf (Database.select dbA2 "t" []).1).count [0, 0, 0, 1] = 1 ∧
    ((rowsOf (Database.select dbA2 "t" []).1).all
      fun r => r == [0, 0, 0, 1] || r == [0, 0, 0, 0]) = true :=
  ⟨by decide, by decide, by decide, by decide, by decide, by decide, by decide,
    by decide, by decide, by decide⟩

/-- Claim C2: after `create_table("t", [{name:"a", type:1, size:4}])`
the in-memory row width is 4, but re-opening the same file computes row
width 0 — the catalog does not survive a close/re-open, because the
Meta-page zero fill overwrote the Definition page (`def_page =
meta_page`) and `open` reads column sizes at fixed record offsets
30..32 that the packed Definition writer never fills. -/
theorem c2_reopen_loses_row_width :
    (List.lookup "t" dbT.header_table).map (fun m => m.row_len) = some 4 ∧
    isOkE (Database.openDB dbT.file) = true ∧
    (List.lookup "t" (okD (Database.openDB dbT.file) db0).header_table).map
      (fun m => m.row_len) = some 0 := by decide

/-- Claim C3: scenario A's `insert` allocates data page 2 for the table
whose Meta page is 1, but writes the absolute page number 2 into the
Meta slot rather than the relative offset 2 − 1 = 1; re-opening the file
therefore records absolute page 3 (= 2 + 1) in the in-use set. -/
theorem c3_meta_slot_holds_absolute :
    beToI32 (readBytes dbA.file 4096 4) = 2 ∧
    (List.lookup "t" dbA.header_table).map (fun m => m.meta_offset) = some 1 ∧
    beToI32 (readBytes dbA.file 4096 4) ≠ 2 - 1 ∧
    (okD (Database.openDB dbA.file) db0).in_use_pages = [3, 1, 0] := by decide

/-- Claim C4: the first `create_table` on a fresh database picks
Definition page 1 and Meta page 1 — the same page, not distinct pages —
because the Meta-page search starts at the Definition page before it is
marked in use. -/
theorem c4_def_meta_pages_equal :
    isOkE (Database.create_table db0 "t" [colA]) = true ∧
    (List.lookup "t" dbT.header_table).map
      (fun m => (m.col_def_offset, m.meta_offset)) = some (1, 1) := by decide

/-- Claim C5 counterexample: on a state whose header bytes 10..31 hold
99, `create_table("t", ...)` (definition page 1) leaves bytes 24..28 of
the record at their prior value `[99,99,99,99]` instead of writing the
big-endian definition page number there. -/
theorem c5_counterexample :
    (List.lookup "t" dbG.header_table).map
      (fun m => (m.col_def_offset, m.meta_offset)) = some (1, 1) ∧
    readBytes dbG.file 24 4 = [99, 99, 99, 99] ∧
    readBytes dbG.file 24 4 ≠ i32ToBe 1 := by decide

/-- Claim C5 (amended): `create_table` writes the Header record at the
chosen slot with the name-length byte at offset 0, the name bytes at
1..1+L, the Definition page number as big-endian i32 at 1+L..5+L, the
Meta page number as big-endian i32 at 5+L..9+L, and leaves bytes
9+L..32 at their existing values.  Stated twice: for the record-write
sequence itself with arbitrary (hence distinguishable) page numbers,
and for every successful `create_table` on a state whose in-use set
contains page 0 (so that the later page writes land beyond the Header
page). -/
theorem c5_header_record_layout :
    (∀ (f : File) (j : Nat) (nameBytes : List Nat) (defPage metaPage : Int),
      writeHeaderRecord f j nameBytes.length nameBytes defPage metaPage (j * 32) =
        nameBytes.length ∧
      readBytes (writeHeaderRecord f j nameBytes.length nameBytes defPage metaPage)
        (j * 32 + 1) nameBytes.length = nameBytes ∧
      readBytes (writeHeaderRecord f j nameBytes.length nameBytes defPage metaPage)
        (j * 32 + 1 + nameBytes.length) 4 = i32ToBe defPage ∧
      readBytes (writeHeaderRecord f j nameBytes.length nameBytes defPage metaPage)
        (j * 32 + 5 + nameBytes.length) 4 = i32ToBe metaPage ∧
      ∀ o, 9 + nameBytes.length ≤ o →
        writeHeaderRecord f j nameBytes.length nameBytes defPage metaPage
          (j * 32 + o) = f (j * 32 + o)) ∧
    (∀ (db : DB) (table_name : String) (table_def : List ColumnDef) (db2 : DB)
      (meta : HeaderMeta),
      (0 : Int) ∈ db.in_use_pages →
      Database.create_table db table_name table_def = .ok db2 →
      List.lookup table_name db2.header_table = some meta →
      db2.file (meta.header_record_offset * 32) = (strBytes table_name).length ∧
      readBytes db2.file (meta.header_record_offset * 32 + 1)
        (strBytes table_name).length = strBytes table_name ∧
      readBytes db2.file
        (meta.header_record_offset * 32 + 1 + (strBytes table_name).length) 4 =
        i32ToBe meta.col_def_offset ∧
      readBytes db2.file
        (meta.header_record_offset * 32 + 5 + (strBytes table_name).length) 4 =
        i32ToBe meta.meta_offset ∧
      ∀ o, 9 + (strBytes table_name).length ≤ o → o < 32 →
        db2.file (meta.header_record_offset * 32 + o) =
          db.file (meta.header_record_offset * 32 + o)) :=
  ⟨writeHeaderRecord_layout, create_table_header_bytes⟩

/-- Claim C6 counterexample: `create_table("e", [])` succeeds and
installs a table whose row width is 0. -/
theorem c6_counterexample :
    isOkE (Database.create_table db0 "e" []) = true ∧
    (List.lookup "e" (okD (Database.create_table db0 "e" []) db0).header_table).map
      (fun m => m.row_len) = some 0 := by decide

/-- Claim C7: during `delete`, for each data page in which every row
slot either matched the conditions or was already all-zero, the
corresponding 32-byte Meta record is zeroed on disk and the page's
stored (absolute) page number is removed from the in-use set — stated
generally for any state whose in-use set is duplicate-free and whose
data pages are disjoint from the Meta page; and concretely, scenario C:
deleting the one remaining row `[0,0,0,2]` returns count 1, zeroes the
Meta record, and leaves the in-use set exactly `{0, def_page,
meta_page}` (= `{0, 1}`, the two catalog pages coinciding), after which
`select("t", [])` returns the empty list. -/
theorem c7_delete_reclaims_pages :
    (∀ (db : DB) (table_name : String) (meta : HeaderMeta) (conds : List Condition)
      (k : Nat),
      List.lookup table_name db.header_table = some meta →
      db.in_use_pages.Nodup →
      (∀ k2, k2 < 128 → recVal db.file meta.meta_offset k2 ≠ 0 →
        pageBase db.file meta.meta_offset k2 + pageSpan meta.row_len ≤
          asU64 meta.meta_offset * PAGE_SIZE ∨
        asU64 meta.meta_offset * PAGE_SIZE + PAGE_SIZE ≤
          pageBase db.file meta.meta_offset k2) →
      k < 128 →
      recVal db.file meta.meta_offset k ≠ 0 →
      (∀ i, i < numSlots meta.row_len →
        rowMatches (readBytes db.file
          (pageBase db.file meta.meta_offset k + i * meta.row_len)
          meta.row_len) conds = true ∨
        (readBytes db.file
          (pageBase db.file meta.meta_offset k + i * meta.row_len)
          meta.row_len).all (· == 0) = true) →
      (∀ i, i < 32 → (okPairD (Database.delete db table_name conds) db).file
        (asU64 meta.meta_offset * PAGE_SIZE + k * 32 + i) = 0) ∧
      recVal db.file meta.meta_offset k ∉
        (okPairD (Database.delete db table_name conds) db).in_use_pages) ∧
    okCount (Database.delete dbB "t" [condC]) = 1 ∧
    isOkE (Database.delete dbB "t" [condC]) = true ∧
    readBytes dbC.file 4096 32 = List.replicate 32 0 ∧
    dbC.in_use_pages = [1, 0] ∧
    (List.lookup "t" dbC.header_table).map
      (fun m => (m.col_def_offset, m.meta_offset)) = some (1, 1) ∧
    (Database.select dbC "t" []).1 = .ok [] := by
  constructor
  · intro db table_name meta conds k hlook hnu hmeta hk hz hslots
    have hflag : (deleteSlots db.file (pageBase db.file meta.meta_offset k)
        meta.row_len conds (List.range (numSlots meta.row_len))).2 = true := by
      refine deleteSlots_flag _ _ _ _ db.file ?_
      intro j hj
      exact hslots j (List.mem_range.mp hj)
    have hmain := deleteRecs_reclaims meta.meta_offset meta.row_len conds db.file
      hmeta (List.range 128) db.file db.in_use_pages (List.nodup_range _) hnu
      (fun k2 hk2 => List.mem_range.mp hk2) (fun _ _ _ _ _ => rfl)
      (fun _ _ _ _ _ _ => rfl) k (List.mem_range.mpr hk) hz hflag
    unfold Database.delete
    rw [hlook]
    exact hmain
  · exact And.intro (by decide) (And.intro (by decide) (And.intro (by decide)
      (And.intro (by decide) (And.intro (by decide) (by decide)))))

end Rustub
